import Mathlib

/-!
Verification of the youtube-shorts pipeline scripts.

Shallow embedding of the pure logic of:
- `.github/scripts/process_youtube_video.py` (segmenter, filename sanitizer,
  timestamp formatter, combined R2/DB publisher loop, main exit logic);
- `.github/scripts/download_and_upload_to_r2.py` (`create_analysis_json`
  segment construction with transcript descriptions);
- `video_manager/github_scripts/upload_shorts_to_r2.py` (standalone shorts
  publisher loop).

Python floats are modelled by `ℚ` (exact at the dyadic inputs the claims use);
machine-side effects (object-storage calls, ORM commits) are modelled by
explicit state passing: the database is a list of records, and each
per-artifact step takes booleans saying whether the external calls succeed.
-/

namespace YT

/-- A segment descriptor as built by `create_segments` in
`process_youtube_video.py` (fields `start`, `end`, `title`, `description`;
the source's `end` field is named `stop` here because `end` is a Lean
keyword). -/
structure Segment where
  start : ℚ
  stop : ℚ
  title : String
  description : String
deriving DecidableEq

/-- `segment_duration = 60` from `create_segments`. -/
def segment_duration : ℚ := 60

/-- `num_segments = min(int(duration // segment_duration), 10)` from
`create_segments` (also how many segments the loop in
`create_analysis_json` runs: `range(min(num_segments, 10))`).
Python `int(d // 60)` is `⌊d / 60⌋`; a negative value makes `range` empty,
which `Int.toNat` reproduces. -/
def num_segments (duration : ℚ) : ℕ := (min ⌊duration / segment_duration⌋ 10).toNat

/-- The loop body of `create_segments` (process_youtube_video.py lines
124-144): `start = i * segment_duration`,
`end = min(start + segment_duration, duration)`, title and description
built from the part number. -/
def create_segments (title : String) (duration : ℚ) : List Segment :=
  (List.range (num_segments duration)).map (fun (i : ℕ) =>
    { start := (i : ℚ) * segment_duration
      stop := min ((i : ℚ) * segment_duration + segment_duration) duration
      title := title ++ " - Part " ++ toString (i + 1)
      description := "Part " ++ toString (i + 1) ++ " of " ++ toString (num_segments duration) })

/-- Duration resolution at the top of `create_segments` (lines 108-122):
if the metadata duration is 0 the script probes with ffprobe; if the probe
itself fails (`except:`), the fallback is `duration = 60`.
`probe = none` models a failed probe, `probe = some d` a probe printing
duration `d`. -/
def resolve_duration (info_duration : ℚ) (probe : Option ℚ) : ℚ :=
  if info_duration = 0 then
    match probe with
    | some d => d
    | none => 60
  else info_duration

/-- `create_segments` including its duration-resolution preamble. -/
def create_segments_full (title : String) (info_duration : ℚ) (probe : Option ℚ) : List Segment :=
  create_segments title (resolve_duration info_duration probe)

/-- `main` after segment creation (process_youtube_video.py lines 341-371):
count the segments ffmpeg cut successfully; if zero, exit 1 without running
the upload stage; otherwise run the upload stage and exit 0 on success,
1 on failure. Returns (exit code, whether the publish stage ran). -/
def main_after_segments (segments : List Segment) (cutOk : Segment → Bool)
    (publishOk : Bool) : ℕ × Bool :=
  let successful := (segments.filter cutOk).length
  if successful = 0 then (1, false)
  else (if publishOk then 0 else 1, true)

/-- The invalid character set of `sanitize_filename`: `'<>:"/\\|?*'`. -/
def invalid_chars : List Char := ['<', '>', ':', '"', '/', '\\', '|', '?', '*']

/-- Python `str.strip(c)` / `str.strip()` on a character list: drop the
matching characters from both ends. -/
def stripWhile (p : Char → Bool) (l : List Char) : List Char :=
  ((l.dropWhile p).reverse.dropWhile p).reverse

/-- The keep-predicate of `sanitize_filename`'s comprehension:
`c.isalnum() or c in ['_', '-']`. -/
def keepChar (c : Char) : Bool := c.isAlphanum || c == '_' || c == '-'

/-- `sanitize_filename` (process_youtube_video.py lines 146-153): remove
every invalid character, turn spaces into underscores, keep only
alphanumerics / `_` / `-`, truncate to `max_length`, then strip `_` from
both ends. `str.replace(ch, '')` removes every occurrence, i.e. filters. -/
def sanitize_filename (title : String) (max_length : ℕ) : String :=
  let t1 := invalid_chars.foldl (fun acc ch => acc.filter (fun c => c != ch)) title.data
  let t2 := t1.map (fun c => if c == ' ' then '_' else c)
  let t3 := t2.filter keepChar
  String.mk (stripWhile (fun c => c == '_') (t3.take max_length))

/-- Python `int()` on a rational value: truncation toward zero. -/
def pyInt (q : ℚ) : ℤ := if 0 ≤ q then ⌊q⌋ else ⌈q⌉

/-- Python `%` for a positive right operand: `a - b * (a // b)`. -/
def pyMod (a b : ℚ) : ℚ := a - b * (⌊a / b⌋ : ℤ)

/-- Python `f"{n:0wd}"`: zero-pad the decimal representation to width `w`
(the sign, when present, counts toward the width). -/
def zfill (w : ℕ) (n : ℤ) : String :=
  if n < 0 then
    let s := toString n.natAbs
    "-" ++ String.mk (List.replicate (w - 1 - s.length) '0') ++ s
  else
    let s := toString n.toNat
    String.mk (List.replicate (w - s.length) '0') ++ s

/-- `format_timestamp` (process_youtube_video.py lines 155-161):
`hours = int(seconds // 3600)`, `minutes = int((seconds % 3600) // 60)`,
`secs = int(seconds % 60)`, `ms = int((seconds % 1) * 1000)`, rendered as
`HH:MM:SS.mmm` with `{:02d}`/`{:03d}` padding. -/
def format_timestamp (seconds : ℚ) : String :=
  let hours : ℤ := ⌊seconds / 3600⌋
  let minutes : ℤ := ⌊(pyMod seconds 3600) / 60⌋
  let secs : ℤ := pyInt (pyMod seconds 60)
  let ms : ℤ := pyInt ((pyMod seconds 1) * 1000)
  zfill 2 hours ++ ":" ++ zfill 2 minutes ++ ":" ++ zfill 2 secs ++ "." ++ zfill 3 ms

/-- One transcript entry (`{'start': ..., 'text': ...}`). -/
structure TranscriptEntry where
  start : ℚ
  text : String
deriving DecidableEq

/-- A segment as built by `create_analysis_json` in
`download_and_upload_to_r2.py` (fields `start`, `end`, `duration`, `title`,
`description`, `reason`). -/
structure AnalysisSegment where
  start : ℚ
  stop : ℚ
  dur : ℚ
  title : String
  description : String
  reason : String
deriving DecidableEq

/-- Python `str.strip()` (no argument): strip whitespace from both ends. -/
def pyStrip (s : String) : String := String.mk (stripWhile Char.isWhitespace s.data)

/-- Python slicing `s[:n]`, by code points. -/
def pySlice (s : String) (n : ℕ) : String := String.mk (s.data.take n)

/-- The condition `start <= entry['start'] < end` of `create_analysis_json`. -/
def in_window (s e : ℚ) (entry : TranscriptEntry) : Bool :=
  decide (s ≤ entry.start) && decide (entry.start < e)

/-- The accumulation loop `segment_text += entry['text'] + " "` over matching
transcript entries (download_and_upload_to_r2.py lines 143-146). -/
def segment_text_acc (transcript : List TranscriptEntry) (s e : ℚ) : String :=
  transcript.foldl
    (fun acc entry => if in_window s e entry then acc ++ entry.text ++ " " else acc) ""

/-- The segment construction of `create_analysis_json`
(download_and_upload_to_r2.py lines 133-156). The guard is Python
`if transcript and duration > 0` (an empty transcript list is falsy); the
description is `segment_text.strip()[:200] if segment_text else
f"Segment {i+1}"`. -/
def create_analysis_segments (title : String) (duration : ℚ)
    (transcript : Option (List TranscriptEntry)) : List AnalysisSegment :=
  match transcript with
  | none => []
  | some t =>
    if !t.isEmpty && decide (duration > 0) then
      (List.range (num_segments duration)).map (fun (i : ℕ) =>
        let start : ℚ := (i : ℚ) * segment_duration
        let e : ℚ := min (start + segment_duration) duration
        let segment_text := segment_text_acc t start e
        { start := start, stop := e, dur := e - start,
          title := title ++ " - Part " ++ toString (i + 1),
          description :=
            if segment_text != "" then pySlice (pyStrip segment_text) 200
            else "Segment " ++ toString (i + 1),
          reason := "Auto-generated segment" })
    else []

/-- Space-joined concatenation of a list of strings, as the claim words it
(used only to compare the claimed description against the code's). -/
def joinSpace : List String → String
  | [] => ""
  | [t] => t
  | t :: rest => t ++ " " ++ joinSpace rest

/-- The value the accumulation loop computes on a list of texts: each text
followed by one space, concatenated. -/
def joinTrail (ts : List String) : String := ts.foldl (fun a t => a ++ t ++ " ") ""

/-- The transcript entries whose start offset lies in the window. -/
def entries_in_window (t : List TranscriptEntry) (s e : ℚ) : List TranscriptEntry :=
  t.filter (in_window s e)

/-- The description exactly as the claim states it: the space-joined texts of
the in-window entries, truncated to 200 characters (claim-side definition,
for comparison with the code's). -/
def spec_description (t : List TranscriptEntry) (s e : ℚ) : String :=
  pySlice (joinSpace ((entries_in_window t s e).map (fun en => en.text))) 200

/-- Whether `pat` is an initial run of `l`. -/
def listStartsWith : List Char → List Char → Bool
  | [], _ => true
  | _ :: _, [] => false
  | p :: ps, c :: cs => p == c && listStartsWith ps cs

/-- Left-to-right, non-overlapping substring replacement on character lists;
`fuel` bounds the number of scan steps (one input character is consumed per
step, so the input length suffices). -/
def replaceFuel (pat repl : List Char) : ℕ → List Char → List Char
  | _, [] => []
  | 0, l => l
  | Nat.succ fuel, c :: cs =>
    if listStartsWith pat (c :: cs) then
      repl ++ replaceFuel pat repl fuel (List.drop (pat.length - 1) cs)
    else c :: replaceFuel pat repl fuel cs

/-- Python `str.replace(pat, repl)` for a non-empty pattern (the scripts only
call it with pattern `".mp4"`): replace every non-overlapping occurrence,
scanning left to right. -/
def pyReplace (s pat repl : String) : String :=
  if pat.data.isEmpty then s
  else String.mk (replaceFuel pat.data repl.data s.data.length s.data)

/-- A row of the `videos` table as both publisher scripts use it.
`r2_url = ""` models a NULL / empty storage URL (both are falsy in the
Python check `existing.r2_url`); `gen` is a generation counter standing in
for `updated_at` (bumped whenever the script touches the row). -/
structure DBRecord where
  video_id : String
  filename : String
  title : String
  description : String
  duration : ℚ
  r2_url : String
  r2_key : String
  gen : ℕ
deriving DecidableEq

/-- The video metadata dict passed to `upload_shorts_to_r2_and_db`. -/
structure VideoInfo where
  title : String
  description : String
  duration : ℚ
deriving DecidableEq

/-- `session.query(Video).filter_by(video_id=...).first()`. -/
def find_by_video_id (db : List DBRecord) (vid : String) : Option DBRecord :=
  db.find? (fun r => r.video_id == vid)

/-- The skip test `if existing and existing.r2_url` of
`upload_shorts_to_r2_and_db` (process_youtube_video.py lines 233-236). -/
def already_uploaded (db : List DBRecord) (vid : String) : Bool :=
  match find_by_video_id db vid with
  | some r => r.r2_url != ""
  | none => false

/-- Updating the first row matching `video_id`: set `r2_url`, `r2_key`,
refresh `updated_at` (the `existing.r2_url = ...` branch of both scripts). -/
def update_record : List DBRecord → String → String → String → List DBRecord
  | [], _, _, _ => []
  | r :: rs, vid, url, key =>
    if r.video_id == vid then
      { r with r2_url := url, r2_key := key, gen := r.gen + 1 } :: rs
    else r :: update_record rs vid url key

/-- Result of one iteration of the upload loop in
`upload_shorts_to_r2_and_db`: database after the iteration, number of
`put_object` calls attempted, and the increment of the `uploaded` counter. -/
structure Step1Out where
  db : List DBRecord
  uploads : ℕ
  uploaded : ℕ
deriving DecidableEq

/-- One iteration of the loop in `upload_shorts_to_r2_and_db`
(process_youtube_video.py lines 226-278): skip when a record with a
non-empty `r2_url` exists; otherwise upload (`uploadOk` says whether
`put_object` succeeds), upsert the row, and commit (`commitOk`); any
exception rolls the session back, leaving the database unchanged. -/
def step1 (public_url : String) (info : VideoInfo) (db : List DBRecord)
    (filename : String) (uploadOk commitOk : Bool) : Step1Out :=
  let short_video_id := pyReplace filename ".mp4" ""
  if already_uploaded db short_video_id then ⟨db, 0, 0⟩
  else if !uploadOk then ⟨db, 1, 0⟩
  else
    let object_key := "videos/" ++ filename
    let url := public_url ++ "/" ++ object_key
    if !commitOk then ⟨db, 1, 0⟩
    else
      let db' :=
        match find_by_video_id db short_video_id with
        | some _ => update_record db short_video_id url object_key
        | none =>
          db ++ [⟨short_video_id, filename, info.title, info.description,
                  info.duration, url, object_key, 0⟩]
      ⟨db', 1, 1⟩

/-- The whole upload loop of `upload_shorts_to_r2_and_db`: fold `step1` over
the shorts (each with its upload/commit outcome), accumulating `uploaded`. -/
def run1 (public_url : String) (info : VideoInfo) (db : List DBRecord)
    (shorts : List (String × Bool × Bool)) : List DBRecord × ℕ :=
  shorts.foldl (fun st a =>
    let r := step1 public_url info st.1 a.1 a.2.1 a.2.2
    (r.db, st.2 + r.uploaded)) (db, 0)

/-- `upload_shorts_to_r2_and_db` returns `uploaded > 0`; `main` exits 0 when
it returns truthy and 1 otherwise (process_youtube_video.py lines 283,
371-382). -/
def publish_exit1 (uploaded : ℕ) : ℕ := if uploaded > 0 then 0 else 1

/-- `key = f"{VIDEO_ID}/{filename}"` (upload_shorts_to_r2.py line 146). -/
def r2_key_for (video_id filename : String) : String := video_id ++ "/" ++ filename

/-- `r2_url = f"{R2_PUBLIC_URL}/videos/{filename}"` (upload_shorts_to_r2.py
line 174). -/
def r2_url_for (public_url filename : String) : String :=
  public_url ++ "/videos/" ++ filename

/-- Result of one iteration of the standalone shorts upload loop: database,
`upload_file` calls attempted, success and failure count increments. -/
structure Step2Out where
  db : List DBRecord
  uploads : ℕ
  succ : ℕ
  failed : ℕ
deriving DecidableEq

/-- One iteration of the loop in `upload_shorts_to_r2.py` (lines 142-221):
`upload_file` is attempted unconditionally (`uploadOk` = it does not raise);
on success the post-upload `head_object` check runs (`headOk`) — if it
raises `ClientError` the file still counts as a success but the database
block is skipped; otherwise the row is upserted with
`r2_url = {public}/videos/{filename}` and `r2_key = {video_id}/{filename}`
and committed. -/
def step2 (video_id public_url : String) (db : List DBRecord)
    (filename : String) (uploadOk headOk : Bool) : Step2Out :=
  let key := r2_key_for video_id filename
  if !uploadOk then ⟨db, 1, 0, 1⟩
  else if !headOk then ⟨db, 1, 1, 0⟩
  else
    let url := r2_url_for public_url filename
    let short_name := pyReplace filename ".mp4" ""
    let db' :=
      match find_by_video_id db short_name with
      | some _ => update_record db short_name url key
      | none => db ++ [⟨short_name, filename, "", "", 0, url, key, 0⟩]
    ⟨db', 1, 1, 0⟩

/-- The whole loop of `upload_shorts_to_r2.py`, folding `step2` and
accumulating `success_count` and `failed_count`. -/
def run2 (video_id public_url : String) (db : List DBRecord)
    (files : List (String × Bool × Bool)) : List DBRecord × ℕ × ℕ :=
  files.foldl (fun st a =>
    let r := step2 video_id public_url st.1 a.1 a.2.1 a.2.2
    (r.db, st.2.1 + r.succ, st.2.2 + r.failed)) (db, 0, 0)

/-- `upload_shorts_to_r2.py` lines 243-248: exit 1 when `success_count == 0`,
else exit 0. -/
def publish_exit2 (success_count : ℕ) : ℕ := if success_count = 0 then 1 else 0

/-! ## Helper lemmas and claim theorems -/

theorem len_cs (t : String) (D : ℚ) : (create_segments t D).length = num_segments D := by
  unfold create_segments
  rw [List.length_map, List.length_range]

theorem mem_cs (t : String) (D : ℚ) (seg : Segment) :
    seg ∈ create_segments t D ↔ ∃ i, i < num_segments D ∧ seg =
      { start := (i : ℚ) * segment_duration
        stop := min ((i : ℚ) * segment_duration + segment_duration) D
        title := t ++ " - Part " ++ toString (i + 1)
        description := "Part " ++ toString (i + 1) ++ " of " ++ toString (num_segments D) } := by
  unfold create_segments
  simp only [List.mem_map, List.mem_range]
  constructor
  · rintro ⟨i, hi, rfl⟩
    exact ⟨i, hi, rfl⟩
  · rintro ⟨i, hi, rfl⟩
    exact ⟨i, hi, rfl⟩

theorem getElem_cs (t : String) (D : ℚ) (i : ℕ) (h : i < num_segments D) :
    (create_segments t D)[i]? = some
      { start := (i : ℚ) * segment_duration
        stop := min ((i : ℚ) * segment_duration + segment_duration) D
        title := t ++ " - Part " ++ toString (i + 1)
        description := "Part " ++ toString (i + 1) ++ " of " ++ toString (num_segments D) } := by
  unfold create_segments
  rw [List.getElem?_map, List.getElem?_range h]
  rfl

theorem min_eq_cs (D : ℚ) (i : ℕ) (h : i < num_segments D) :
    min ((i : ℚ) * segment_duration + segment_duration) D
      = (i : ℚ) * segment_duration + segment_duration := by
  unfold num_segments segment_duration at *
  have h2 : (i : ℤ) + 1 ≤ ⌊D / 60⌋ := by
    have := min_le_left ⌊D / 60⌋ 10
    omega
  have h3 : ((i : ℚ) + 1) ≤ D / 60 := by
    calc ((i : ℚ) + 1) = (((i : ℤ) + 1 : ℤ) : ℚ) := by push_cast; ring
    _ ≤ (⌊D / 60⌋ : ℚ) := by exact_mod_cast h2
    _ ≤ D / 60 := Int.floor_le _
  have h4 : (i : ℚ) * 60 + 60 ≤ D := by
    have := (le_div_iff₀ (by norm_num : (0:ℚ) < 60)).mp h3
    linarith

  exact min_eq_left h4

theorem get_cs (t : String) (D : ℚ) (i : ℕ) (h : i < (create_segments t D).length) :
    (create_segments t D).get ⟨i, h⟩ =
      { start := (i : ℚ) * segment_duration
        stop := min ((i : ℚ) * segment_duration + segment_duration) D
        title := t ++ " - Part " ++ toString (i + 1)
        description := "Part " ++ toString (i + 1) ++ " of " ++ toString (num_segments D) } := by
  have hn : i < num_segments D := by rwa [len_cs] at h
  have h1 := getElem_cs t D i hn
  rw [List.getElem?_eq_getElem h] at h1
  rw [List.get_eq_getElem]
  exact Option.some.inj h1

/-- C1 (amended): for every non-negative duration D with window W=60, the
Segmenter produces exactly `min(floor(D/W), 10)` segments, strictly ordered
by start, non-overlapping, each of length at most W, together covering the
half-open interval `[0, min(floor(D/W), 10) * W)`.  (The original claim's
interval `[0, min(floor(D/W)*W, D))` is wrong once the 10-segment cap
binds; see `C1_counterexample`.) -/
theorem C1_theorem (title : String) (D : ℚ) (hD : 0 ≤ D) :
    (create_segments title D).length = num_segments D ∧
    (∀ i j (hi : i < (create_segments title D).length)
        (hj : j < (create_segments title D).length), i < j →
      ((create_segments title D).get ⟨i, hi⟩).start
          < ((create_segments title D).get ⟨j, hj⟩).start ∧
      ((create_segments title D).get ⟨i, hi⟩).stop
          ≤ ((create_segments title D).get ⟨j, hj⟩).start) ∧
    (∀ seg ∈ create_segments title D,
      seg.stop - seg.start ≤ 60 ∧ 0 ≤ seg.start ∧ seg.stop ≤ (num_segments D : ℚ) * 60) ∧
    (∀ q : ℚ, 0 ≤ q → q < (num_segments D : ℚ) * 60 →
      ∃ seg ∈ create_segments title D, seg.start ≤ q ∧ q < seg.stop) := by
  refine ⟨len_cs title D, ?_, ?_, ?_⟩
  · intro i j hi hj hij
    have hi' : i < num_segments D := by rwa [len_cs] at hi
    have hj' : j < num_segments D := by rwa [len_cs] at hj
    rw [get_cs, get_cs]
    refine ⟨?_, ?_⟩
    · show (i : ℚ) * segment_duration < (j : ℚ) * segment_duration
      have : (i : ℚ) < j := by exact_mod_cast hij
      unfold segment_duration
      nlinarith
    · show min ((i : ℚ) * segment_duration + segment_duration) D ≤ (j : ℚ) * segment_duration
      rw [min_eq_cs D i hi']
      have : (i : ℚ) + 1 ≤ j := by exact_mod_cast hij
      unfold segment_duration
      nlinarith
  · intro seg hseg
    rcases (mem_cs _ _ _).mp hseg with ⟨i, hi, rfl⟩
    have hmin := min_eq_cs D i hi
    refine ⟨?_, ?_, ?_⟩
    · show min ((i : ℚ) * segment_duration + segment_duration) D - (i : ℚ) * segment_duration ≤ 60
      rw [hmin]
      unfold segment_duration
      norm_num
    · show (0:ℚ) ≤ (i : ℚ) * segment_duration
      unfold segment_duration
      positivity
    · show min ((i : ℚ) * segment_duration + segment_duration) D ≤ (num_segments D : ℚ) * 60
      rw [hmin]
      have : (i : ℚ) + 1 ≤ num_segments D := by exact_mod_cast hi
      unfold segment_duration
      nlinarith
  · intro q hq0 hqlt
    have hq60 : (0:ℚ) < 60 := by norm_num
    refine ⟨_, ((mem_cs title D _).mpr ⟨⌊q / 60⌋.toNat, ?_, rfl⟩), ?_, ?_⟩
    · -- index bound
      have hfl0 : 0 ≤ ⌊q / 60⌋ := Int.floor_nonneg.mpr (by positivity)
      have h0 : (⌊q / 60⌋ : ℚ) < (num_segments D : ℚ) := by
        have h1 : q / 60 < (num_segments D : ℚ) := by
          rw [div_lt_iff₀ hq60]
          linarith
        calc (⌊q / 60⌋ : ℚ) ≤ q / 60 := Int.floor_le _
        _ < (num_segments D : ℚ) := h1
      have h2 : ⌊q / 60⌋ < ((num_segments D : ℕ) : ℤ) := by exact_mod_cast h0
      exact (Int.toNat_lt hfl0).mpr h2
    · show (⌊q / 60⌋.toNat : ℚ) * segment_duration ≤ q
      unfold segment_duration
      have hfl0 : 0 ≤ ⌊q / 60⌋ := Int.floor_nonneg.mpr (by positivity)
      have hc : ((⌊q / 60⌋.toNat : ℕ) : ℚ) = (⌊q / 60⌋ : ℚ) := by
        exact_mod_cast congrArg (fun z : ℤ => (z : ℚ)) (Int.toNat_of_nonneg hfl0)
      rw [hc]
      have := Int.floor_le (q / 60)
      calc (⌊q / 60⌋ : ℚ) * 60 ≤ (q / 60) * 60 := by nlinarith
      _ = q := by field_simp
    · show q < min ((⌊q / 60⌋.toNat : ℚ) * segment_duration + segment_duration) D
      unfold segment_duration
      have hfl0 : 0 ≤ ⌊q / 60⌋ := Int.floor_nonneg.mpr (by positivity)
      have hc : ((⌊q / 60⌋.toNat : ℕ) : ℚ) = (⌊q / 60⌋ : ℚ) := by
        exact_mod_cast congrArg (fun z : ℤ => (z : ℚ)) (Int.toNat_of_nonneg hfl0)
      rw [lt_min_iff, hc]
      constructor
      · have := Int.lt_floor_add_one (q / 60)
        have h1 : q / 60 < (⌊q / 60⌋ : ℚ) + 1 := this
        have h2 : q < ((⌊q / 60⌋ : ℚ) + 1) * 60 := by
          rw [div_lt_iff₀ hq60] at h1
          linarith
        linarith
      · -- q < D since q < n*60 ≤ 60*floor(D/60) ≤ D
        have h1 : ((num_segments D : ℕ) : ℤ) ≤ ⌊D / 60⌋ := by
          unfold num_segments segment_duration
          have hfD : 0 ≤ ⌊D / (60:ℚ)⌋ := Int.floor_nonneg.mpr (by positivity)
          have hmin : 0 ≤ min ⌊D / (60:ℚ)⌋ 10 := le_min hfD (by norm_num)
          rw [Int.toNat_of_nonneg hmin]
          exact min_le_left _ _
        have h2 : ((num_segments D : ℕ) : ℚ) * 60 ≤ D := by
          have h3 : (((num_segments D : ℕ) : ℤ) : ℚ) ≤ (⌊D / 60⌋ : ℚ) := by exact_mod_cast h1
          have h4 : (⌊D / 60⌋ : ℚ) ≤ D / 60 := Int.floor_le _
          have h5 : ((num_segments D : ℕ) : ℚ) ≤ D / 60 := by
            calc ((num_segments D : ℕ) : ℚ) = (((num_segments D : ℕ) : ℤ) : ℚ) := by push_cast; ring
            _ ≤ D / 60 := le_trans h3 h4
          rw [le_div_iff₀ hq60] at h5
          linarith
        linarith

/-- C1 counterexample: at D = 725 the point 650 lies in the claimed covered
interval `[0, min(floor(725/60)*60, 725)) = [0, 720)`, yet no produced
segment contains it (the cap stops coverage at 600). -/
theorem C1_counterexample :
    (0:ℚ) ≤ 650 ∧ (650:ℚ) < min ((⌊(725:ℚ) / 60⌋ : ℚ) * 60) 725 ∧
    ∀ seg ∈ create_segments "t" 725, ¬(seg.start ≤ 650 ∧ (650:ℚ) < seg.stop) := by
  refine ⟨by norm_num, by norm_num, ?_⟩
  intro seg hseg
  rcases (mem_cs _ _ _).mp hseg with ⟨i, hi, rfl⟩
  rintro ⟨h1, h2⟩
  have hn : num_segments 725 = 10 := by
    unfold num_segments segment_duration
    norm_num
    decide
  rw [hn] at hi
  have hi9 : (i : ℚ) ≤ 9 := by exact_mod_cast Nat.lt_succ_iff.mp hi
  have hstop : min ((i : ℚ) * segment_duration + segment_duration) (725:ℚ)
      ≤ (i : ℚ) * segment_duration + segment_duration := min_le_left _ _
  unfold segment_duration at *
  simp only at h2
  nlinarith

/-- C1 witness: the amended theorem instantiated at D = 725. -/
theorem C1_witness : 0 ≤ (725:ℚ) ∧ (create_segments "t" 725).length = num_segments 725 :=
  ⟨by norm_num, ( C1_theorem "t" 725 (by norm_num)).1⟩

theorem num_segments_zero : num_segments 0 = 0 := by
  unfold num_segments segment_duration
  norm_num

theorem create_segments_zero (t : String) : create_segments t 0 = [] := by
  unfold create_segments
  rw [num_segments_zero]
  rfl

theorem mem_cas (t : String) (D : ℚ) (tr : Option (List TranscriptEntry))
    (seg : AnalysisSegment) (h : seg ∈ create_analysis_segments t D tr) :
    ∃ i, i < num_segments D ∧
      seg.start = (i : ℚ) * segment_duration ∧
      seg.stop = min ((i : ℚ) * segment_duration + segment_duration) D ∧
      seg.dur = seg.stop - seg.start := by
  rcases tr with _ | tl
  · simp [create_analysis_segments] at h
  · simp only [create_analysis_segments] at h
    by_cases hg : (!tl.isEmpty && decide (D > 0)) = true
    · rw [if_pos hg] at h
      simp only [List.mem_map, List.mem_range] at h
      rcases h with ⟨i, hi, rfl⟩
      exact ⟨i, hi, rfl, rfl, rfl⟩
    · rw [if_neg hg] at h
      simp at h

/-- C4 (amended): for a resolved duration of 0 the Segmenter produces zero
segments, and zero extracted clips are a hard failure (exit code 1) before
the publish stage; however, when the duration probe itself fails, the code
falls back to duration 60 and produces one segment instead of zero (contrary
to the original claim's parenthetical). -/
theorem C4_theorem (title : String) (segs : List Segment) (cutOk : Segment → Bool)
    (publishOk : Bool) (h : (segs.filter cutOk).length = 0) :
    create_segments title 0 = [] ∧
    resolve_duration 0 none = 60 ∧
    (create_segments_full title 0 none).length = 1 ∧
    main_after_segments segs cutOk publishOk = (1, false) := by
  refine ⟨create_segments_zero title, rfl, ?_, ?_⟩
  · unfold create_segments_full
    have hres : resolve_duration 0 none = 60 := rfl
    rw [hres, len_cs]
    unfold num_segments segment_duration
    norm_num
  · unfold main_after_segments
    rw [h]
    rfl

/-- C4 counterexample: with metadata duration 0 and a failed probe the code
produces one segment, not zero. -/
theorem C4_counterexample :
    (create_segments_full "t" 0 none).length = 1 ∧
    (create_segments_full "t" 0 none).length ≠ 0 := by
  have h : (create_segments_full "t" 0 none).length = 1 := by
    unfold create_segments_full
    have hres : resolve_duration 0 none = 60 := rfl
    rw [hres, len_cs]
    unfold num_segments segment_duration
    norm_num
  exact ⟨h, by rw [h]; norm_num⟩

/-- C4 witness: the amended theorem at an empty segment list. -/
theorem C4_witness :
    create_segments "x" 0 = [] ∧
    resolve_duration 0 none = 60 ∧
    (create_segments_full "x" 0 none).length = 1 ∧
    main_after_segments [] (fun _ => true) true = (1, false) :=
  C4_theorem "x" [] (fun _ => true) true rfl

/-- C8: for every duration D at least 60, every segment the Segmenter
produces (in either script) has length exactly 60 seconds: the end bound
`min(start + 60, D)` never truncates a produced segment. -/
theorem C8_theorem (t : String) (D : ℚ) (hD : 60 ≤ D) :
    (∀ seg ∈ create_segments t D, seg.stop - seg.start = 60) ∧
    (∀ (tr : Option (List TranscriptEntry)), ∀ seg ∈ create_analysis_segments t D tr,
      seg.stop - seg.start = 60 ∧ seg.dur = 60) := by
  constructor
  · intro seg hseg
    rcases (mem_cs _ _ _).mp hseg with ⟨i, hi, rfl⟩
    show min ((i : ℚ) * segment_duration + segment_duration) D - (i : ℚ) * segment_duration = 60
    rw [min_eq_cs D i hi]
    unfold segment_duration
    ring
  · intro tr seg hseg
    rcases mem_cas t D tr seg hseg with ⟨i, hi, hstart, hstop, hdur⟩
    have h60 : seg.stop - seg.start = 60 := by
      rw [hstart, hstop, min_eq_cs D i hi]
      unfold segment_duration
      ring
    exact ⟨h60, by rw [hdur, h60]⟩

/-- C8 witness: segment 1 of a 120-second video has length exactly 60. -/
theorem C8_witness :
    (Segment.mk (((0 : ℕ) : ℚ) * segment_duration) (min (((0 : ℕ) : ℚ) * segment_duration + segment_duration) 120)
      ("x" ++ " - Part " ++ toString (0 + 1))
      ("Part " ++ toString (0 + 1) ++ " of " ++ toString (num_segments 120))).stop -
    (Segment.mk (((0 : ℕ) : ℚ) * segment_duration) (min (((0 : ℕ) : ℚ) * segment_duration + segment_duration) 120)
      ("x" ++ " - Part " ++ toString (0 + 1))
      ("Part " ++ toString (0 + 1) ++ " of " ++ toString (num_segments 120))).start = 60 := by
  have hmem : (Segment.mk (((0 : ℕ) : ℚ) * segment_duration) (min (((0 : ℕ) : ℚ) * segment_duration + segment_duration) 120)
      ("x" ++ " - Part " ++ toString (0 + 1))
      ("Part " ++ toString (0 + 1) ++ " of " ++ toString (num_segments 120))) ∈ create_segments "x" 120 := by
    refine (mem_cs "x" 120 _).mpr ⟨0, ?_, rfl⟩
    unfold num_segments segment_duration
    norm_num
  exact ( C8_theorem "x" 120 (by norm_num)).1 _ hmem

theorem mem_of_dropWhile {p : Char → Bool} {l : List Char} {c : Char}
    (h : c ∈ l.dropWhile p) : c ∈ l := by
  induction l with
  | nil => simp at h
  | cons x xs ih =>
    rw [List.dropWhile_cons] at h
    by_cases hp : p x = true
    · rw [if_pos hp] at h
      exact List.mem_cons_of_mem x (ih h)
    · rw [if_neg hp] at h
      exact h

theorem length_dropWhile_le {p : Char → Bool} (l : List Char) :
    (l.dropWhile p).length ≤ l.length := by
  induction l with
  | nil => simp
  | cons x xs ih =>
    rw [List.dropWhile_cons]
    by_cases hp : p x = true
    · rw [if_pos hp]
      exact le_trans ih (by simp)
    · rw [if_neg hp]

theorem mem_of_stripWhile {p : Char → Bool} {l : List Char} {c : Char}
    (h : c ∈ stripWhile p l) : c ∈ l := by
  unfold stripWhile at h
  rw [List.mem_reverse] at h
  have h1 := mem_of_dropWhile h
  rw [List.mem_reverse] at h1
  exact mem_of_dropWhile h1

theorem length_stripWhile_le {p : Char → Bool} (l : List Char) :
    (stripWhile p l).length ≤ l.length := by
  unfold stripWhile
  rw [List.length_reverse]
  calc ((l.dropWhile p).reverse.dropWhile p).length
      ≤ (l.dropWhile p).reverse.length := length_dropWhile_le _
  _ = (l.dropWhile p).length := List.length_reverse _
  _ ≤ l.length := length_dropWhile_le _

theorem dropWhile_dropWhile {p : Char → Bool} (l : List Char) :
    (l.dropWhile p).dropWhile p = l.dropWhile p := by
  induction l with
  | nil => rfl
  | cons x xs ih =>
    rw [List.dropWhile_cons]
    by_cases hp : p x = true
    · rw [if_pos hp]
      exact ih
    · rw [if_neg hp, List.dropWhile_cons, if_neg hp]

theorem dropWhile_stable_of_append {p : Char → Bool} (b t : List Char)
    (h : (b ++ t).dropWhile p = b ++ t) : b.dropWhile p = b := by
  cases b with
  | nil => rfl
  | cons x xs =>
    rw [List.cons_append, List.dropWhile_cons] at h
    by_cases hp : p x = true
    · exfalso
      rw [if_pos hp] at h
      have hle := length_dropWhile_le (p := p) (xs ++ t)
      rw [h] at hle
      simp at hle
    · rw [List.dropWhile_cons, if_neg hp]

theorem dropWhile_suffix_decomp {p : Char → Bool} (l : List Char) :
    ∃ t, t ++ l.dropWhile p = l := by
  induction l with
  | nil => exact ⟨[], rfl⟩
  | cons x xs ih =>
    rw [List.dropWhile_cons]
    by_cases hp : p x = true
    · rcases ih with ⟨t, ht⟩
      rw [if_pos hp]
      exact ⟨x :: t, by rw [List.cons_append, ht]⟩
    · rw [if_neg hp]
      exact ⟨[], rfl⟩

theorem stripWhile_dropWhile {p : Char → Bool} (l : List Char) :
    (stripWhile p l).dropWhile p = stripWhile p l := by
  rcases dropWhile_suffix_decomp (p := p) (l.dropWhile p).reverse with ⟨t, ht⟩
  have hA : ((stripWhile p l) ++ t.reverse).dropWhile p = (stripWhile p l) ++ t.reverse := by
    have h2 : (stripWhile p l) ++ t.reverse = l.dropWhile p := by
      have := congrArg List.reverse ht
      rw [List.reverse_append, List.reverse_reverse] at this
      unfold stripWhile
      exact this
    rw [h2]
    exact dropWhile_dropWhile l
  exact dropWhile_stable_of_append _ _ hA

theorem stripWhile_idem {p : Char → Bool} (l : List Char) :
    stripWhile p (stripWhile p l) = stripWhile p l := by
  show (((stripWhile p l).dropWhile p).reverse.dropWhile p).reverse = stripWhile p l
  rw [stripWhile_dropWhile]
  have hrev : (stripWhile p l).reverse = (l.dropWhile p).reverse.dropWhile p := by
    unfold stripWhile
    rw [List.reverse_reverse]
  rw [hrev, dropWhile_dropWhile]
  rfl

theorem foldl_filter_eq_self (cs : List Char) (l : List Char)
    (h : ∀ a ∈ l, ∀ c ∈ cs, a ≠ c) :
    cs.foldl (fun acc ch => acc.filter (fun c => c != ch)) l = l := by
  induction cs generalizing l with
  | nil => rfl
  | cons c cs ih =>
    rw [List.foldl_cons]
    have hl : l.filter (fun x => x != c) = l := by
      apply List.filter_eq_self.mpr
      intro a ha
      exact bne_iff_ne.mpr (h a ha c (List.mem_cons_self c cs))
    rw [hl]
    exact ih l (fun a ha c' hc' => h a ha c' (List.mem_cons_of_mem _ hc'))

theorem map_eq_self {f : Char → Char} {l : List Char}
    (h : ∀ a ∈ l, f a = a) : l.map f = l := by
  induction l with
  | nil => rfl
  | cons x xs ih =>
    rw [List.map_cons, h x (List.mem_cons_self x xs),
      ih (fun a ha => h a (List.mem_cons_of_mem _ ha))]

theorem sanitize_filename_data (s : String) (ml : ℕ) :
    (sanitize_filename s ml).data = stripWhile (fun c => c == '_')
      ((((invalid_chars.foldl (fun acc ch => acc.filter (fun c => c != ch)) s.data).map
        (fun c => if c == ' ' then '_' else c)).filter keepChar).take ml) := rfl

theorem mem_sanitize (s : String) (ml : ℕ) :
    ∀ c ∈ (sanitize_filename s ml).data, keepChar c = true := by
  intro c hc
  rw [sanitize_filename_data] at hc
  have h1 := mem_of_stripWhile hc
  have h2 := List.mem_of_mem_take h1
  exact (List.mem_filter.mp h2).2

theorem keepChar_ne (c : Char) (h : keepChar c = true) : c ∉ invalid_chars ∧ c ≠ ' ' := by
  constructor
  · intro hmem
    fin_cases hmem <;> exact absurd h (by decide)
  · intro heq
    subst heq
    exact absurd h (by decide)

theorem length_sanitize (s : String) (ml : ℕ) : (sanitize_filename s ml).data.length ≤ ml := by
  rw [sanitize_filename_data]
  calc (stripWhile (fun c => c == '_')
      ((((invalid_chars.foldl (fun acc ch => acc.filter (fun c => c != ch)) s.data).map
        (fun c => if c == ' ' then '_' else c)).filter keepChar).take ml)).length
      ≤ ((((invalid_chars.foldl (fun acc ch => acc.filter (fun c => c != ch)) s.data).map
        (fun c => if c == ' ' then '_' else c)).filter keepChar).take ml).length :=
        length_stripWhile_le _
  _ ≤ ml := by
      rw [List.length_take]
      exact min_le_left _ _

/-- C5: filename sanitization is idempotent, its output contains no character
from the disallowed set `<>:"/\|?*` and no space, and its length is at most
50. -/
theorem C5_theorem (s : String) :
    sanitize_filename (sanitize_filename s 50) 50 = sanitize_filename s 50 ∧
    ((sanitize_filename s 50).data.all
      (fun c => !(decide (c ∈ invalid_chars)) && !(c == ' '))) = true ∧
    (sanitize_filename s 50).length ≤ 50 := by
  have hmem := mem_sanitize s 50
  have hlen := length_sanitize s 50
  refine ⟨?_, ?_, hlen⟩
  · apply String.ext
    rw [sanitize_filename_data (sanitize_filename s 50) 50]
    have h1 : invalid_chars.foldl (fun acc ch => acc.filter (fun c => c != ch))
        (sanitize_filename s 50).data = (sanitize_filename s 50).data := by
      apply foldl_filter_eq_self
      intro a ha c hc
      intro heq
      subst heq
      exact (keepChar_ne a (hmem a ha)).1 hc
    rw [h1]
    have h2 : (sanitize_filename s 50).data.map (fun c => if c == ' ' then '_' else c)
        = (sanitize_filename s 50).data := by
      apply map_eq_self
      intro a ha
      have := (keepChar_ne a (hmem a ha)).2
      simp [this]
    rw [h2]
    have h3 : (sanitize_filename s 50).data.filter keepChar = (sanitize_filename s 50).data :=
      List.filter_eq_self.mpr hmem
    rw [h3]
    have h4 : (sanitize_filename s 50).data.take 50 = (sanitize_filename s 50).data :=
      List.take_of_length_le hlen
    rw [h4]
    rw [sanitize_filename_data s 50]
    exact stripWhile_idem _
  · rw [List.all_eq_true]
    intro c hc
    rcases keepChar_ne c (hmem c hc) with ⟨h1, h2⟩
    simp only [Bool.and_eq_true, Bool.not_eq_true']
    exact ⟨decide_eq_false h1, by simpa using h2⟩

theorem pyMod_eq_fract (a b : ℚ) (hb : b ≠ 0) : pyMod a b = b * Int.fract (a / b) := by
  unfold pyMod Int.fract
  field_simp

theorem pyMod_nonneg (a b : ℚ) (hb : 0 < b) : 0 ≤ pyMod a b := by
  rw [pyMod_eq_fract a b hb.ne']
  exact mul_nonneg hb.le (Int.fract_nonneg _)

theorem pyMod_lt (a b : ℚ) (hb : 0 < b) : pyMod a b < b := by
  rw [pyMod_eq_fract a b hb.ne']
  calc b * Int.fract (a / b) < b * 1 := mul_lt_mul_of_pos_left (Int.fract_lt_one _) hb
  _ = b := mul_one b

theorem pyInt_of_nonneg (a : ℚ) (h : 0 ≤ a) : pyInt a = ⌊a⌋ := by
  unfold pyInt
  rw [if_pos h]

theorem C6_concrete : format_timestamp (3725.125 : ℚ) = "01:02:05.125" := by
  have h1 : ⌊(3725.125:ℚ) / 3600⌋ = 1 := by norm_num
  have hm : pyMod (3725.125:ℚ) 3600 = 125.125 := by
    unfold pyMod
    rw [h1]
    norm_num
  have h2 : ⌊pyMod (3725.125:ℚ) 3600 / 60⌋ = 2 := by
    rw [hm]
    norm_num
  have hm60 : ⌊(3725.125:ℚ) / 60⌋ = 62 := by norm_num
  have hs : pyMod (3725.125:ℚ) 60 = 5.125 := by
    unfold pyMod
    rw [hm60]
    norm_num
  have h3 : pyInt (pyMod (3725.125:ℚ) 60) = 5 := by
    rw [hs, pyInt_of_nonneg _ (by norm_num)]
    norm_num
  have hm1 : ⌊(3725.125:ℚ) / 1⌋ = 3725 := by norm_num
  have hms : pyMod (3725.125:ℚ) 1 = 0.125 := by
    unfold pyMod
    rw [hm1]
    norm_num
  have h4 : pyInt (pyMod (3725.125:ℚ) 1 * 1000) = 125 := by
    rw [hms]
    rw [show (0.125:ℚ) * 1000 = 125 by norm_num]
    rw [pyInt_of_nonneg _ (by norm_num)]
    norm_num
  simp only [format_timestamp]
  rw [h1, h2, h3, h4]
  rfl

/-- C6: formatting 3725.125 seconds yields "01:02:05.125"; in general, for a
non-negative input the output is zero-padded `HH:MM:SS.mmm` with minutes and
seconds below 60 and milliseconds below 1000. -/
theorem C6_theorem (q : ℚ) (hq : 0 ≤ q) :
    format_timestamp (3725.125 : ℚ) = "01:02:05.125" ∧
    ∃ hh mm ss mss : ℕ, mm < 60 ∧ ss < 60 ∧ mss < 1000 ∧
      format_timestamp q =
        zfill 2 (hh : ℤ) ++ ":" ++ zfill 2 (mm : ℤ) ++ ":"
          ++ zfill 2 (ss : ℤ) ++ "." ++ zfill 3 (mss : ℤ) := by
  have hq3600 : (0:ℚ) ≤ q / 3600 := div_nonneg hq (by norm_num)
  have hhnn : 0 ≤ ⌊q / 3600⌋ := Int.floor_nonneg.mpr hq3600
  have hMnn : 0 ≤ pyMod q 3600 := pyMod_nonneg q 3600 (by norm_num)
  have hMlt : pyMod q 3600 < 3600 := pyMod_lt q 3600 (by norm_num)
  have hmnn : 0 ≤ ⌊pyMod q 3600 / 60⌋ :=
    Int.floor_nonneg.mpr (div_nonneg hMnn (by norm_num))
  have hmlt : ⌊pyMod q 3600 / 60⌋ < 60 := by
    rw [Int.floor_lt]
    rw [div_lt_iff₀ (by norm_num : (0:ℚ) < 60)]
    push_cast
    linarith
  have hSnn : 0 ≤ pyMod q 60 := pyMod_nonneg q 60 (by norm_num)
  have hSlt : pyMod q 60 < 60 := pyMod_lt q 60 (by norm_num)
  have hsint : pyInt (pyMod q 60) = ⌊pyMod q 60⌋ := pyInt_of_nonneg _ hSnn
  have hsnn : 0 ≤ pyInt (pyMod q 60) := by
    rw [hsint]
    exact Int.floor_nonneg.mpr hSnn
  have hslt : pyInt (pyMod q 60) < 60 := by
    rw [hsint, Int.floor_lt]
    push_cast
    linarith
  have hUnn : 0 ≤ pyMod q 1 := pyMod_nonneg q 1 (by norm_num)
  have hUlt : pyMod q 1 < 1 := pyMod_lt q 1 (by norm_num)
  have hmsint : pyInt (pyMod q 1 * 1000) = ⌊pyMod q 1 * 1000⌋ :=
    pyInt_of_nonneg _ (mul_nonneg hUnn (by norm_num))
  have hmsnn : 0 ≤ pyInt (pyMod q 1 * 1000) := by
    rw [hmsint]
    exact Int.floor_nonneg.mpr (mul_nonneg hUnn (by norm_num))
  have hmslt : pyInt (pyMod q 1 * 1000) < 1000 := by
    rw [hmsint, Int.floor_lt]
    push_cast
    linarith
  refine ⟨C6_concrete, ⌊q / 3600⌋.toNat, ⌊pyMod q 3600 / 60⌋.toNat,
    (pyInt (pyMod q 60)).toNat, (pyInt (pyMod q 1 * 1000)).toNat,
    by omega, by omega, by omega, ?_⟩
  have e1 : ((⌊q / 3600⌋.toNat : ℕ) : ℤ) = ⌊q / 3600⌋ := Int.toNat_of_nonneg hhnn
  have e2 : ((⌊pyMod q 3600 / 60⌋.toNat : ℕ) : ℤ) = ⌊pyMod q 3600 / 60⌋ :=
    Int.toNat_of_nonneg hmnn
  have e3 : (((pyInt (pyMod q 60)).toNat : ℕ) : ℤ) = pyInt (pyMod q 60) :=
    Int.toNat_of_nonneg hsnn
  have e4 : (((pyInt (pyMod q 1 * 1000)).toNat : ℕ) : ℤ) = pyInt (pyMod q 1 * 1000) :=
    Int.toNat_of_nonneg hmsnn
  simp only [format_timestamp]
  rw [e1, e2, e3, e4]

/-- C6 witness: the theorem applied at q = 0. -/
theorem C6_witness :
    format_timestamp (3725.125 : ℚ) = "01:02:05.125" ∧
    ∃ hh mm ss mss : ℕ, mm < 60 ∧ ss < 60 ∧ mss < 1000 ∧
      format_timestamp 0 =
        zfill 2 (hh : ℤ) ++ ":" ++ zfill 2 (mm : ℤ) ++ ":"
          ++ zfill 2 (ss : ℤ) ++ "." ++ zfill 3 (mss : ℤ) :=
  C6_theorem 0 le_rfl

theorem joinTrail_nil : joinTrail [] = "" := rfl

theorem joinTrail_acc (ts : List String) (a : String) :
    ts.foldl (fun x t => x ++ t ++ " ") a = a ++ joinTrail ts := by
  induction ts generalizing a with
  | nil => exact (String.append_empty a).symm
  | cons t rest ih =>
    rw [List.foldl_cons, ih (a ++ t ++ " ")]
    have h : joinTrail (t :: rest) = t ++ " " ++ joinTrail rest := by
      unfold joinTrail
      rw [List.foldl_cons, ih ("" ++ t ++ " ")]
      rfl
    rw [h, ← String.append_assoc, ← String.append_assoc]

theorem joinTrail_cons (t : String) (rest : List String) :
    joinTrail (t :: rest) = t ++ " " ++ joinTrail rest := by
  unfold joinTrail
  rw [List.foldl_cons, joinTrail_acc]
  rfl

theorem joinTrail_cons_ne_empty (t : String) (rest : List String) :
    joinTrail (t :: rest) ≠ "" := by
  rw [joinTrail_cons]
  intro h
  have hd := congrArg String.data h
  have h2 : (t.data ++ [' ']) ++ (joinTrail rest).data = [] := hd
  rcases List.append_eq_nil.mp h2 with ⟨h3, _⟩
  exact absurd (List.append_eq_nil.mp h3).2 (by simp)

theorem joinTrail_eq_joinSpace (ts : List String) (h : ts ≠ []) :
    joinTrail ts = joinSpace ts ++ " " := by
  induction ts with
  | nil => exact absurd rfl h
  | cons t rest ih =>
    cases rest with
    | nil =>
      rw [joinTrail_cons, joinTrail_nil, String.append_empty]
      rfl
    | cons r rs =>
      rw [joinTrail_cons, ih (by simp)]
      rw [show joinSpace (t :: r :: rs) = t ++ " " ++ joinSpace (r :: rs) from rfl]
      simp only [String.append_assoc]

theorem segment_text_acc_gen (s e : ℚ) (tl : List TranscriptEntry) (a : String) :
    tl.foldl (fun acc entry => if in_window s e entry then acc ++ entry.text ++ " " else acc) a
      = a ++ joinTrail ((tl.filter (in_window s e)).map (fun en => en.text)) := by
  induction tl generalizing a with
  | nil => exact (String.append_empty a).symm
  | cons en rest ih =>
    rw [List.foldl_cons]
    by_cases hc : in_window s e en = true
    · rw [if_pos hc, ih, List.filter_cons_of_pos hc, List.map_cons, joinTrail_cons,
        ← String.append_assoc, ← String.append_assoc]
    · rw [if_neg hc, ih, List.filter_cons_of_neg (by simpa using hc)]

theorem segment_text_acc_eq (tl : List TranscriptEntry) (s e : ℚ) :
    segment_text_acc tl s e
      = joinTrail ((entries_in_window tl s e).map (fun en => en.text)) := by
  unfold segment_text_acc entries_in_window
  rw [segment_text_acc_gen]
  rfl

theorem stripWhile_append_ws (l : List Char) :
    stripWhile Char.isWhitespace (l ++ [' ']) = stripWhile Char.isWhitespace l := by
  unfold stripWhile
  rw [List.dropWhile_append]
  by_cases he : (l.dropWhile Char.isWhitespace).isEmpty = true
  · rw [if_pos he]
    have h2 : l.dropWhile Char.isWhitespace = [] := by
      rwa [List.isEmpty_iff] at he
    rw [h2]
    rfl
  · rw [if_neg he, List.reverse_append]
    have h3 : ([' '] : List Char).reverse ++ (l.dropWhile Char.isWhitespace).reverse
        = ' ' :: (l.dropWhile Char.isWhitespace).reverse := rfl
    rw [h3, List.dropWhile_cons, if_pos (by decide)]

theorem pyStrip_append_space (x : String) : pyStrip (x ++ " ") = pyStrip x := by
  apply String.ext
  show stripWhile Char.isWhitespace (x.data ++ [' ']) = stripWhile Char.isWhitespace x.data
  exact stripWhile_append_ws x.data

theorem description_eq (tl : List TranscriptEntry) (s e : ℚ) (i : ℕ) :
    (if segment_text_acc tl s e != "" then pySlice (pyStrip (segment_text_acc tl s e)) 200
      else "Segment " ++ toString (i + 1)) =
    (if entries_in_window tl s e = [] then "Segment " ++ toString (i + 1)
      else pySlice (pyStrip (joinSpace ((entries_in_window tl s e).map (fun en => en.text)))) 200) := by
  rw [segment_text_acc_eq]
  by_cases hw : entries_in_window tl s e = []
  · rw [hw, if_pos rfl]
    exact if_neg (by decide)
  · rw [if_neg hw]
    rcases List.exists_cons_of_ne_nil hw with ⟨en, rest, hcons⟩
    have hts : (entries_in_window tl s e).map (fun en => en.text)
        = en.text :: rest.map (fun en => en.text) := by rw [hcons]; rfl
    rw [hts]
    have hne := joinTrail_cons_ne_empty en.text (rest.map (fun en => en.text))
    rw [if_pos (bne_iff_ne.mpr hne)]
    rw [joinTrail_eq_joinSpace _ (by simp)]
    rw [pyStrip_append_space]

/-- C7 (amended): when a non-empty transcript is available and the duration is
positive, each segment's description is the whitespace-stripped space-joined
concatenation of the texts of the transcript entries whose start offset lies
in `[window_start, window_end)`, truncated to 200 characters, when at least
one such entry exists — and the per-segment placeholder `"Segment {i+1}"`
when the window contains no entry.  When no transcript is available the
analysis script emits no segments at all, and the process script attaches the
synthetic placeholder `"Part {i+1} of {n}"` to every segment. -/
theorem C7_theorem (title t2 : String) (D D2 : ℚ) (tl : List TranscriptEntry)
    (hne : tl ≠ []) (hD : 0 < D) :
    ((create_analysis_segments title D (some tl)).map (fun sg => sg.description) =
      (List.range (num_segments D)).map (fun (i : ℕ) =>
        if entries_in_window tl ((i : ℚ) * segment_duration)
            (min ((i : ℚ) * segment_duration + segment_duration) D) = []
        then "Segment " ++ toString (i + 1)
        else pySlice (pyStrip (joinSpace ((entries_in_window tl ((i : ℚ) * segment_duration)
          (min ((i : ℚ) * segment_duration + segment_duration) D)).map
            (fun en => en.text)))) 200)) ∧
    create_analysis_segments title D none = [] ∧
    (create_segments t2 D2).map (fun sg => sg.description) =
      (List.range (num_segments D2)).map
        (fun (i : ℕ) => "Part " ++ toString (i + 1) ++ " of " ++ toString (num_segments D2)) := by
  refine ⟨?_, rfl, ?_⟩
  · have hg : (!tl.isEmpty && decide (D > 0)) = true := by
      rw [Bool.and_eq_true]
      constructor
      · rw [Bool.not_eq_true']
        cases tl with
        | nil => exact absurd rfl hne
        | cons a l => rfl
      · exact decide_eq_true hD
    simp only [create_analysis_segments, if_pos hg, List.map_map]
    apply List.map_congr_left
    intro i _
    exact description_eq tl ((i : ℚ) * segment_duration)
      (min ((i : ℚ) * segment_duration + segment_duration) D) i
  · unfold create_segments
    rw [List.map_map]
    rfl

/-- C7 counterexample: with transcript `[{start 0, text "a"}]` and duration
120, segment 2's window is `[60, 120)`, the claim's space-joined description
for that window is the empty string, yet the code produces the placeholder
`"Segment 2"`. -/
theorem C7_counterexample :
    (create_analysis_segments "t" 120 (some [⟨0, "a"⟩]))[1]?
      = some ⟨60, 120, 60, "t - Part 2", "Segment 2", "Auto-generated segment"⟩ ∧
    spec_description [⟨0, "a"⟩] 60 120 = "" ∧
    ("Segment 2" : String) ≠ "" := by
  have hsd : spec_description [⟨0, "a"⟩] 60 120 = "" := by
    have hf : (([⟨0, "a"⟩] : List TranscriptEntry).filter (in_window 60 120)) = [] := by
      rw [List.filter_eq_nil_iff]
      intro a ha
      rw [List.mem_singleton] at ha
      subst ha
      unfold in_window
      have hlt : ¬((60:ℚ) ≤ (0:ℚ)) := by norm_num
      simp [hlt]
    unfold spec_description entries_in_window
    rw [hf]
    rfl
  refine ⟨?_, hsd, by decide⟩
  have hn : num_segments 120 = 2 := by
    unfold num_segments segment_duration
    norm_num
    decide
  have hg : (!(List.isEmpty ([⟨0, "a"⟩] : List TranscriptEntry)) && decide ((120:ℚ) > 0)) = true := by
    decide
  have h1 : ((1:ℕ) : ℚ) * segment_duration = 60 := by
    unfold segment_duration
    push_cast
    norm_num
  have h2 : min (((1:ℕ) : ℚ) * segment_duration + segment_duration) 120 = 120 := by
    unfold segment_duration
    push_cast
    norm_num
  have h3 : entries_in_window [⟨0, "a"⟩] (((1:ℕ) : ℚ) * segment_duration)
      (min (((1:ℕ) : ℚ) * segment_duration + segment_duration) 120) = [] := by
    unfold entries_in_window
    rw [List.filter_eq_nil_iff]
    intro a ha
    rw [List.mem_singleton] at ha
    subst ha
    unfold in_window
    rw [h1]
    have hlt : ¬((60:ℚ) ≤ (0:ℚ)) := by norm_num
    simp [hlt]
  simp only [create_analysis_segments, if_pos hg, hn]
  rw [List.getElem?_map, List.getElem?_range (by norm_num : (1:ℕ) < 2)]
  rw [Option.map_some']
  refine congrArg some ?_
  show AnalysisSegment.mk _ _ _ _ _ _ = AnalysisSegment.mk _ _ _ _ _ _
  congr 1
  · rw [h2, h1]
    norm_num
  · rw [segment_text_acc_eq, h3]
    rw [if_neg (by decide)]
    rfl

/-- C7 witness: the amended theorem instantiated at duration 60 with a
one-entry transcript. -/
theorem C7_witness :
    ((create_analysis_segments "x" 60 (some [⟨0, "a"⟩])).map (fun sg => sg.description) =
      (List.range (num_segments 60)).map (fun (i : ℕ) =>
        if entries_in_window [⟨0, "a"⟩] ((i : ℚ) * segment_duration)
            (min ((i : ℚ) * segment_duration + segment_duration) 60) = []
        then "Segment " ++ toString (i + 1)
        else pySlice (pyStrip (joinSpace ((entries_in_window [⟨0, "a"⟩] ((i : ℚ) * segment_duration)
          (min ((i : ℚ) * segment_duration + segment_duration) 60)).map
            (fun en => en.text)))) 200)) ∧
    create_analysis_segments "x" 60 none = [] ∧
    (create_segments "y" 0).map (fun sg => sg.description) =
      (List.range (num_segments 0)).map
        (fun (i : ℕ) => "Part " ++ toString (i + 1) ++ " of " ++ toString (num_segments 0)) :=
  C7_theorem "x" "y" 60 0 [⟨0, "a"⟩] (by simp) (by norm_num)

/-- C2 counterexample: in the standalone shorts-upload script, an artifact
whose database record already has a non-empty storage URL is still uploaded
(one `upload_file` call) and its record is modified (`updated_at`
refreshed). -/
theorem C2_counterexample :
    (step2 "v" "https://pub" [⟨"clip", "clip.mp4", "", "", 0, "https://pub/videos/clip.mp4",
        "videos/clip.mp4", 0⟩] "clip.mp4" true true).uploads = 1 ∧
    (step2 "v" "https://pub" [⟨"clip", "clip.mp4", "", "", 0, "https://pub/videos/clip.mp4",
        "videos/clip.mp4", 0⟩] "clip.mp4" true true).db ≠
      [⟨"clip", "clip.mp4", "", "", 0, "https://pub/videos/clip.mp4", "videos/clip.mp4", 0⟩] := by
  constructor
  · rfl
  · decide

/-- C2 (amended): in the combined process script, an artifact whose record
exists with a non-empty storage URL is skipped — zero upload calls and an
unchanged database; the standalone shorts-upload script, however, performs
its upload call unconditionally (exactly one `upload_file` attempt per
artifact regardless of existing records). -/
theorem C2_theorem (public_url : String) (info : VideoInfo) (db : List DBRecord)
    (filename : String) (uploadOk commitOk : Bool)
    (vid pub2 : String) (db2 : List DBRecord) (f2 : String) (u2 h2 : Bool)
    (halready : already_uploaded db (pyReplace filename ".mp4" "") = true) :
    step1 public_url info db filename uploadOk commitOk = ⟨db, 0, 0⟩ ∧
    (step2 vid pub2 db2 f2 u2 h2).uploads = 1 := by
  constructor
  · unfold step1
    rw [if_pos halready]
  · unfold step2
    rcases u2 with _ | _
    · rfl
    · rcases h2 with _ | _
      · rfl
      · simp only [Bool.not_true]
        rw [if_neg (by simp)]
        rw [if_neg (by simp)]

/-- C2 witness: the amended theorem at a concrete already-published record. -/
theorem C2_witness :
    step1 "https://pub" ⟨"t", "d", 10⟩
      [⟨"clip", "clip.mp4", "t", "d", 10, "https://pub/videos/clip.mp4", "videos/clip.mp4", 0⟩]
      "clip.mp4" true true =
      ⟨[⟨"clip", "clip.mp4", "t", "d", 10, "https://pub/videos/clip.mp4", "videos/clip.mp4", 0⟩],
        0, 0⟩ ∧
    (step2 "v" "https://pub" [] "a.mp4" true true).uploads = 1 :=
  C2_theorem "https://pub" ⟨"t", "d", 10⟩
    [⟨"clip", "clip.mp4", "t", "d", 10, "https://pub/videos/clip.mp4", "videos/clip.mp4", 0⟩]
    "clip.mp4" true true "v" "https://pub" [] "a.mp4" true true (by decide)

theorem step1_fail (public_url : String) (info : VideoInfo) (db : List DBRecord)
    (filename : String) (uploadOk commitOk : Bool)
    (hfail : uploadOk = false ∨ commitOk = false) :
    (step1 public_url info db filename uploadOk commitOk).db = db ∧
    (step1 public_url info db filename uploadOk commitOk).uploaded = 0 := by
  unfold step1
  by_cases ha : already_uploaded db (pyReplace filename ".mp4" "") = true
  · rw [if_pos ha]
    exact ⟨rfl, rfl⟩
  · rw [if_neg ha]
    rcases hfail with hf | hf
    · subst hf
      simp
    · subst hf
      rcases uploadOk with _ | _
      · simp
      · simp

/-- C3: a per-artifact publish failure (upload error or commit error) leaves
the database unchanged (the transaction is rolled back) and contributes no
success; the batch continues exactly as if the failing artifact were absent;
the process exit code is 0 iff at least one artifact succeeded and 1 iff
zero artifacts succeeded (for both publisher scripts). -/
theorem C3_theorem (public_url : String) (info : VideoInfo) (db : List DBRecord)
    (filename : String) (uploadOk commitOk : Bool)
    (pre post : List (String × Bool × Bool))
    (hfail : uploadOk = false ∨ commitOk = false) :
    ((step1 public_url info db filename uploadOk commitOk).db = db ∧
      (step1 public_url info db filename uploadOk commitOk).uploaded = 0) ∧
    run1 public_url info db (pre ++ (filename, uploadOk, commitOk) :: post)
      = run1 public_url info db (pre ++ post) ∧
    (∀ n : ℕ, (publish_exit1 n = 0 ↔ 0 < n) ∧ (publish_exit1 n = 1 ↔ n = 0) ∧
      (publish_exit2 n = 0 ↔ 0 < n) ∧ (publish_exit2 n = 1 ↔ n = 0)) := by
  refine ⟨step1_fail public_url info db filename uploadOk commitOk hfail, ?_, ?_⟩
  · unfold run1
    rw [List.foldl_append, List.foldl_append, List.foldl_cons]
    congr 1
    have h1 := step1_fail public_url info
      (List.foldl (fun st a =>
        let r := step1 public_url info st.1 a.1 a.2.1 a.2.2
        (r.db, st.2 + r.uploaded)) (db, 0) pre).1 filename uploadOk commitOk hfail
    show ((step1 public_url info _ filename uploadOk commitOk).db,
      _ + (step1 public_url info _ filename uploadOk commitOk).uploaded) = _
    rw [h1.1, h1.2, Nat.add_zero]
  · intro n
    refine ⟨?_, ?_, ?_, ?_⟩ <;> first
      | (unfold publish_exit1 ; split <;> omega)
      | (unfold publish_exit2 ; split <;> omega)

/-- C3 witness: the theorem at a concrete failing upload. -/
theorem C3_witness :
    (step1 "p" ⟨"t", "d", 0⟩ [] "a.mp4" false true).db = [] ∧
    (step1 "p" ⟨"t", "d", 0⟩ [] "a.mp4" false true).uploaded = 0 :=
  ( C3_theorem "p" ⟨"t", "d", 0⟩ [] "a.mp4" false true [] [] (Or.inl rfl)).1

/-- C9: when the post-upload `head_object` check raises a client error, the
standalone shorts script still counts the artifact as a success and writes
no database record; a batch consisting of only such an artifact reports one
success, exits 0, and leaves the database empty. -/
theorem C9_theorem (vid pub : String) (db : List DBRecord) (f : String) :
    step2 vid pub db f true false = ⟨db, 1, 1, 0⟩ ∧
    run2 vid pub [] [(f, true, false)] = ([], 1, 0) ∧
    publish_exit2 (run2 vid pub [] [(f, true, false)]).2.1 = 0 :=
  ⟨rfl, rfl, rfl⟩

theorem mem_update_record (db : List DBRecord) (svid url key : String) (rec : DBRecord)
    (h : rec ∈ update_record db svid url key) :
    rec ∈ db ∨ (rec.r2_url = url ∧ rec.r2_key = key) := by
  induction db with
  | nil => simp [update_record] at h
  | cons r rs ih =>
    unfold update_record at h
    by_cases hv : (r.video_id == svid) = true
    · rw [if_pos hv] at h
      rcases List.mem_cons.mp h with hh | hh
      · right
        rw [hh]
        exact ⟨rfl, rfl⟩
      · left
        exact List.mem_cons_of_mem _ hh
    · rw [if_neg hv] at h
      rcases List.mem_cons.mp h with hh | hh
      · left
        rw [hh]
        exact List.mem_cons_self _ _
      · rcases ih hh with hl | hr
        · left
          exact List.mem_cons_of_mem _ hl
        · right
          exact hr

theorem sdata_append (a b : String) : (a ++ b).data = a.data ++ b.data := rfl

theorem url_key_distinct (vid pub f : String) (hvid : vid ≠ "videos") :
    pub ++ "/" ++ r2_key_for vid f ≠ r2_url_for pub f := by
  unfold r2_key_for r2_url_for
  intro h
  apply hvid
  have hd := congrArg String.data h
  simp only [sdata_append, List.append_assoc] at hd
  have h1 : (['/'] : List Char) ++ (vid.data ++ (['/'] ++ f.data))
      = ['/'] ++ (['v', 'i', 'd', 'e', 'o', 's'] ++ (['/'] ++ f.data)) := by
    have h0 := List.append_cancel_left hd
    rw [h0]
    rfl
  have h2 : vid.data ++ (['/'] ++ f.data)
      = ['v', 'i', 'd', 'e', 'o', 's'] ++ (['/'] ++ f.data) :=
    List.append_cancel_left h1
  have hlen : vid.data.length = 6 := by
    have hlen0 := congrArg List.length h2
    simp only [List.length_append, List.length_cons, List.length_nil] at hlen0
    omega
  have h3 := (List.append_inj h2 (by rw [hlen]; rfl)).1
  exact String.ext h3

theorem step2_success_db (vid pub : String) (db : List DBRecord) (f : String) :
    (step2 vid pub db f true true).db =
      match find_by_video_id db (pyReplace f ".mp4" "") with
      | some _ => update_record db (pyReplace f ".mp4" "") (r2_url_for pub f) (r2_key_for vid f)
      | none => db ++ [⟨pyReplace f ".mp4" "", f, "", "", 0,
          r2_url_for pub f, r2_key_for vid f, 0⟩] := rfl

/-- C10 (amended): every record the standalone shorts script writes carries
storage URL `{public}/videos/{filename}` and storage key
`{identifier}/{filename}`; whenever the identifier differs from the literal
string "videos", the recorded URL's path differs from the key under which
the object was uploaded.  (The original "never matches" fails for the
identifier "videos"; see `C10_counterexample`.) -/
theorem C10_theorem (vid pub f : String) (db : List DBRecord) (rec : DBRecord)
    (hmem : rec ∈ (step2 vid pub db f true true).db) (hvid : vid ≠ "videos") :
    (rec ∈ db ∨ (rec.r2_url = r2_url_for pub f ∧ rec.r2_key = r2_key_for vid f)) ∧
    pub ++ "/" ++ r2_key_for vid f ≠ r2_url_for pub f := by
  refine ⟨?_, url_key_distinct vid pub f hvid⟩
  rw [step2_success_db] at hmem
  rcases hfind : find_by_video_id db (pyReplace f ".mp4" "") with _ | r
  · rw [hfind] at hmem
    rcases List.mem_append.mp hmem with hl | hr
    · exact Or.inl hl
    · rw [List.mem_singleton] at hr
      rw [hr]
      exact Or.inr ⟨rfl, rfl⟩
  · rw [hfind] at hmem
    exact mem_update_record db (pyReplace f ".mp4" "") (r2_url_for pub f) (r2_key_for vid f)
      rec hmem

/-- C10 counterexample: with identifier "videos" the recorded URL is exactly
the public base followed by the upload key, so "never matches" fails. -/
theorem C10_counterexample :
    (step2 "videos" "https://pub" [] "a.mp4" true true).db.all
      (fun r => r.r2_url == "https://pub" ++ "/" ++ r.r2_key) = true ∧
    (step2 "videos" "https://pub" [] "a.mp4" true true).db ≠ [] := by
  exact ⟨by decide, by decide⟩

/-- C10 witness: the amended theorem at a concrete inserted record. -/
theorem C10_witness :
    ((⟨"a", "a.mp4", "", "", 0, "https://pub/videos/a.mp4", "v/a.mp4", 0⟩ : DBRecord)
        ∈ ([] : List DBRecord) ∨
      ((⟨"a", "a.mp4", "", "", 0, "https://pub/videos/a.mp4", "v/a.mp4", 0⟩ : DBRecord).r2_url
          = r2_url_for "https://pub" "a.mp4" ∧
        (⟨"a", "a.mp4", "", "", 0, "https://pub/videos/a.mp4", "v/a.mp4", 0⟩ : DBRecord).r2_key
          = r2_key_for "v" "a.mp4")) ∧
    "https://pub" ++ "/" ++ r2_key_for "v" "a.mp4" ≠ r2_url_for "https://pub" "a.mp4" :=
  C10_theorem "v" "https://pub" "a.mp4" []
    ⟨"a", "a.mp4", "", "", 0, "https://pub/videos/a.mp4", "v/a.mp4", 0⟩ (by decide) (by decide)

end YT
